import Mathlib

/-!
Verification development for the media-catalog pipeline in `parsex.py`.

The Python source is shallowly embedded below.  Pure functions become Lean
functions over `String` / `List Char` / `ℚ` / `Nat`; fallible code returns
`Option`; the filesystem, the external `ffprobe` process and the timestamp
formatter are modelled as explicit oracles passed to the pipeline.  Machine
floats only occur in the source as exact powers-of-two divisions and as
decimal formatting of small rationals, so they are modelled by `ℚ`.
-/

/-- Zero-pads a decimal string on the left to the given width.
Models the zero-fill of Python format specs such as `{:02}`. -/
def padZeros (w : Nat) (s : String) : String :=
  if s.length < w then String.mk (List.replicate (w - s.length) '0') ++ s else s

/-- Models Python `f"{n:02}"` for integers. -/
def pad2 (n : Int) : String :=
  padZeros 2 (toString n)

/-- Models Python `int()` applied to a real number: truncation toward zero. -/
def pyInt (q : ℚ) : Int :=
  if 0 ≤ q then ⌊q⌋ else ⌈q⌉

/-- Models Python fixed-point formatting `f"{q:.prec f}"` for nonnegative
values: scale by `10 ^ prec`, round half to even, then print the integer part,
a dot, and the zero-padded fractional digits. -/
def fmtFixed (prec : Nat) (q : ℚ) : String :=
  let scaled : ℚ := q * (10 : ℚ) ^ prec
  let fl : Int := ⌊scaled⌋
  let fr : ℚ := scaled - fl
  let n : Int :=
    if fr > 1 / 2 then fl + 1
    else if fr < 1 / 2 then fl
    else if fl % 2 = 0 then fl else fl + 1
  let ip : Int := n.ediv ((10 : Int) ^ prec)
  let fp : Int := n.emod ((10 : Int) ^ prec)
  toString ip ++ "." ++ padZeros prec (toString fp)

/-- Embeds `format_duration` (parsex.py:122-127): seconds to `HH:MM:SS`;
a falsy (zero) input yields `"00:00:00"`. -/
def format_duration (seconds : ℚ) : String :=
  if seconds = 0 then "00:00:00"
  else
    let t : Int := pyInt seconds
    let m : Int := t.ediv 60
    let s : Int := t.emod 60
    let h : Int := m.ediv 60
    let m2 : Int := m.emod 60
    pad2 h ++ ":" ++ pad2 m2 ++ ":" ++ pad2 s

/-- Loop body of `format_size` (parsex.py:130-135): walk the unit list,
dividing by 1024, and return at the first unit where the value is below 1024.
Falling off the end of the loop is Python's implicit `return None`. -/
def format_size_go (q : ℚ) : List String → Option String
  | [] => none
  | u :: rest =>
      if q < 1024 then some (fmtFixed 1 q ++ " " ++ u)
      else format_size_go (q / 1024) rest

/-- Embeds `format_size` (parsex.py:130-135).  All divisions in the source are
by 1024 on values below `2 ^ 53`, hence exact in double precision, so the
rational model agrees with the float semantics on every comparison made. -/
def format_size (size_bytes : Nat) : Option String :=
  format_size_go (size_bytes : ℚ) ["B", "KB", "MB", "GB"]

/-- Embeds `get_res_label` (parsex.py:138-150). -/
def get_res_label (width height : Int) : String :=
  let short_side := min width height
  if short_side ≥ 2160 then "2160p"
  else if short_side ≥ 1080 then "1080p"
  else if short_side ≥ 720 then "720p"
  else if short_side ≥ 540 then "540p"
  else if short_side ≥ 480 then "480p"
  else toString short_side ++ "p"

/-! ## The filename heuristic parser (parsex.py:153-203)

The regex `^(.+?)\.(?:(?:\d{2}\.){2}\d{2}|\d{4})\.(.*)$` is embedded as an
explicit backtracking matcher on `List Char`: the non-greedy prefix tries the
dot positions left to right, and at each dot the `dd.dd.dd` alternative is
tried before the `dddd` alternative, exactly as the regex engine does.
Filenames are assumed newline-free (true of every caller, which passes
path stems). -/

/-- Consumes one decimal digit (`\d`). -/
def eatDigit : List Char → Option (List Char)
  | c :: r => if c.isDigit then some r else none
  | [] => none

/-- Consumes one literal dot (`\.`). -/
def eatDot : List Char → Option (List Char)
  | c :: r => if c = '.' then some r else none
  | [] => none

/-- Consumes `\d{2}\.` : two digits then a dot. -/
def eatDD (t : List Char) : Option (List Char) :=
  match eatDigit t with
  | none => none
  | some r =>
      match eatDigit r with
      | none => none
      | some r2 => eatDot r2

/-- Consumes `(?:\d{2}\.){2}\d{2}` followed by the literal `\.` after the
date group: three digit-digit-dot blocks in a row. -/
def matchD8tail (t : List Char) : Option (List Char) :=
  match eatDD t with
  | none => none
  | some r =>
      match eatDD r with
      | none => none
      | some r2 => eatDD r2

/-- Consumes `\d{4}` followed by the literal `\.` after the date group. -/
def matchD4tail (t : List Char) : Option (List Char) :=
  match eatDigit t with
  | none => none
  | some r =>
      match eatDigit r with
      | none => none
      | some r2 => eatDD r2

/-- At a fixed position, tries the `dd.dd.dd` alternative first and then the
`dddd` alternative, each followed by the mandatory dot; returns the remainder
captured by `(.*)$`. -/
def matchDateAndTail (t : List Char) : Option (List Char) :=
  match matchD8tail t with
  | some r => some r
  | none => matchD4tail t

/-- Non-greedy scan for the earliest dot position at which a date token (plus
its trailing dot) matches.  `pre` is the prefix accumulated so far, i.e. the
text group `(.+?)` already consumed. -/
def reSearchGo (pre : List Char) : List Char → Option (List Char × List Char)
  | [] => none
  | c :: rest =>
      if c = '.' then
        match matchDateAndTail rest with
        | some r => some (pre, r)
        | none => reSearchGo (pre ++ [c]) rest
      else reSearchGo (pre ++ [c]) rest

/-- Embeds `re.search` of the date pattern (parsex.py:155): returns the
prefix group and the remainder group, or `none` when the pattern does not
occur.  The prefix must be nonempty (`.+?`), so the scan starts after the
first character. -/
def reSearchL : List Char → Option (List Char × List Char)
  | [] => none
  | c :: rest => reSearchGo [c] rest

/-- Worker for Python `str.split('.')`: splits at every dot, keeping empty
segments, with `cur` the reversed current segment. -/
def splitDotGo (cur : List Char) : List Char → List (List Char)
  | [] => [cur.reverse]
  | c :: rest =>
      if c = '.' then cur.reverse :: splitDotGo [] rest
      else splitDotGo (c :: cur) rest

/-- Python `s.split('.')` on a character list, as strings. -/
def splitDotL (l : List Char) : List String :=
  (splitDotGo [] l).map String.mk

/-- Python `str.upper()` (character-wise, as the source only meets ASCII). -/
def toUpperL (s : String) : String :=
  String.mk (s.toList.map Char.toUpper)

/-- Whether `sub` is a prefix of `l` (character-wise). -/
def startsWithL : List Char → List Char → Bool
  | [], _ => true
  | _ :: _, [] => false
  | a :: as, b :: bs => a == b && startsWithL as bs

/-- Python substring containment `sub in l`. -/
def hasInfixL (sub : List Char) : List Char → Bool
  | [] => startsWithL sub []
  | c :: rest => startsWithL sub (c :: rest) || hasInfixL sub rest

/-- Worker for Python `str.split('/')`, like `splitDotGo`. -/
def splitSlashGo (cur : List Char) : List Char → List (List Char)
  | [] => [cur.reverse]
  | c :: rest =>
      if c = '/' then cur.reverse :: splitSlashGo [] rest
      else splitSlashGo (c :: cur) rest

/-- Python `s.split('/')`. -/
def splitSlashL (s : String) : List String :=
  (splitSlashGo [] s.toList).map String.mk

/-- The numeric value of a list of decimal digits. -/
def digitsToNat (l : List Char) : Nat :=
  l.foldl (fun a c => a * 10 + (c.toNat - 48)) 0

/-- Truncation of the token list strictly before a case-insensitive `XXX`
token (parsex.py:181-183). -/
def truncateAtXXX (ms : List String) : List String :=
  let upper := ms.map toUpperL
  if upper.contains "XXX" then ms.take (upper.indexOf "XXX") else ms

/-- Cast assembly from the (possibly truncated) token list
(parsex.py:185-201). -/
def castFromMatches (ms : List String) : String :=
  if ms.length ≤ 3 then String.intercalate " " ms
  else if !(ms.contains "And") then String.intercalate " " (ms.take 2)
  else
    let and_idx := ms.indexOf "And"
    if and_idx < 3 then
      let name_before := String.intercalate " " (ms.take and_idx)
      let after_and_parts := ms.drop (and_idx + 1)
      let name_after :=
        if after_and_parts.length ≤ 2 then String.intercalate " " after_and_parts
        else String.intercalate " " (after_and_parts.take 2)
      name_before ++ ", " ++ name_after
    else String.intercalate " " (ms.take 2)

/-- Embeds `parse_filename_metadata` (parsex.py:153-203): returns
`(collection, cast)`. -/
def parse_filename_metadata (filename : String) : String × String :=
  let l := filename.toList
  let collection0 :=
    if l.contains '.' then String.mk ((splitDotGo [] l).headD []) else "Unknown"
  match reSearchL l with
  | none => (collection0, "Unknown")
  | some (pre, rest) =>
      let collection := String.mk (pre.map (fun c => if c = '.' then ' ' else c))
      let ms := truncateAtXXX (splitDotL rest)
      (collection, castFromMatches ms)

/-- The `dd.dd.dd` date-token shape: eight characters, digits in positions
0,1,3,4,6,7 and dots in positions 2 and 5. -/
def isD8 : List Char → Bool
  | [a, b, c, d, e, f, g, h] =>
      a.isDigit && b.isDigit && (c = '.') && d.isDigit && e.isDigit &&
        (f = '.') && g.isDigit && h.isDigit
  | _ => false

/-- The `dddd` date-token shape: exactly four digits. -/
def isD4 : List Char → Bool
  | [a, b, c, d] => a.isDigit && b.isDigit && c.isDigit && d.isDigit
  | _ => false

/-- A filename contains a recognizable date token: some nonempty prefix is
followed by a dot, a `dd.dd.dd` or `dddd` group, and another dot. -/
def hasDateToken (f : String) : Prop :=
  ∃ pre d rest : List Char,
    pre ≠ [] ∧ f.toList = pre ++ '.' :: (d ++ '.' :: rest) ∧
      (isD8 d = true ∨ isD4 d = true)

/-! ## The metadata probe adapter (parsex.py:206-250)

`get_metadata_ffprobe` is modelled from the point where `json.loads` has
produced a structured document: process spawning and JSON decoding are the
external boundary, so the embedding takes the decoded document (`ProbeData`)
and a pipeline-level oracle decides whether that boundary succeeded.  Numeric
JSON fields are carried post-conversion (`int()` / `float()` of a present
field), with `none` for an absent field.  The `r_frame_rate` string is kept
verbatim because the source passes it to `eval`. -/

/-- One entry of the decoded `streams` list. -/
structure StreamInfo where
  codec_type : String
  width : Option Int
  height : Option Int
  r_frame_rate : Option String
  bit_rate : Option Nat
  channels : Option Nat
  sample_rate : Option Nat
deriving DecidableEq, Repr

/-- The decoded `format` object. -/
structure FormatInfo where
  duration : Option ℚ
  bit_rate : Option Nat
  comment : Option String
deriving DecidableEq, Repr

/-- A decoded ffprobe JSON document. -/
structure ProbeData where
  streams : List StreamInfo
  format : FormatInfo
deriving DecidableEq, Repr

/-- The dictionary returned by a successful `get_metadata_ffprobe` call. -/
structure ProbeMeta where
  duration : ℚ
  bitrate : Nat
  width : Int
  height : Int
  fps : ℚ
  audio_bitrate : Nat
  audio_channels : Nat
  audio_sample_rate : Nat
  comment : String
deriving DecidableEq, Repr

/-- Models a Python 3 decimal integer literal: plain digits with no leading
zero (a multi-digit literal starting with `0` is a `SyntaxError`). -/
def pyIntLit (s : String) : Option Nat :=
  match s.toList with
  | [] => none
  | c :: cs =>
      if c == '0' && !cs.isEmpty then none
      else if (c :: cs).all Char.isDigit then some (digitsToNat (c :: cs))
      else none

/-- Models `eval` applied to an ffprobe rate string of the shape
`"<num>/<den>"` or `"<num>"` (parsex.py:225): an explicit rational parse in
the model, with `none` standing for the exception `eval` raises on a zero
denominator (`ZeroDivisionError`) or a malformed literal. -/
def pyEvalFrac (s : String) : Option ℚ :=
  match splitSlashL s with
  | [a] => (pyIntLit a).map (fun n => (n : ℚ))
  | [a, b] =>
      match pyIntLit a, pyIntLit b with
      | some n, some d => if d = 0 then none else some ((n : ℚ) / (d : ℚ))
      | _, _ => none
  | _ => none

/-- Embeds `get_metadata_ffprobe` (parsex.py:206-250) after JSON decoding:
selects the first video and first audio stream, extracts the fields with
their defaults, and returns `none` when the frame-rate evaluation raises
(the `except` clause at parsex.py:248). -/
def get_metadata_ffprobe (data : ProbeData) : Option ProbeMeta :=
  let video_stream := data.streams.find? (fun s => s.codec_type == "video")
  let audio_stream := data.streams.find? (fun s => s.codec_type == "audio")
  let format_info := data.format
  let duration : ℚ := format_info.duration.getD 0
  let bitrate : Nat := format_info.bit_rate.getD 0 / 1000
  let width : Int := match video_stream with
    | some vs => vs.width.getD 0
    | none => 0
  let height : Int := match video_stream with
    | some vs => vs.height.getD 0
    | none => 0
  let fpsOpt : Option ℚ := match video_stream with
    | some vs => pyEvalFrac (vs.r_frame_rate.getD "0/1")
    | none => some 0
  let audio_bitrate : Nat := match audio_stream with
    | some sa => match sa.bit_rate with
      | some b => b / 1000
      | none => 0
    | none => 0
  let audio_channels : Nat := match audio_stream with
    | some sa => sa.channels.getD 0
    | none => 0
  let audio_sample_rate : Nat := match audio_stream with
    | some sa => sa.sample_rate.getD 0
    | none => 0
  let comment : String := format_info.comment.getD ""
  match fpsOpt with
  | none => none
  | some fps =>
      some { duration := duration, bitrate := bitrate, width := width,
             height := height, fps := fps, audio_bitrate := audio_bitrate,
             audio_channels := audio_channels,
             audio_sample_rate := audio_sample_rate, comment := comment }

/-! ## Records, files and the catalog store -/

/-- One catalog row, with the fields built at parsex.py:277-294.  `size`,
`audio_bitrate` and `audio_sampling_rate` are `Option` because the source can
store Python `None` there. -/
structure MediaRecord where
  name : String
  size : Option String
  duration : String
  collection : String
  cast : String
  tags : String
  path : String
  bitrate : String
  create_time : String
  fps : String
  resolution : String
  audio_bitrate : Option String
  audio_channels : Nat
  audio_sampling_rate : Option String
  comment : String
deriving DecidableEq, Repr

/-- A discovered video file: directory part, stem (base name without
extension) and extension.  `pathlib`'s `video.name` is `stem ++ suffix`,
`video.stem` is `stem`. -/
structure VFile where
  stem : String
  suffix : String
  dir : String
deriving DecidableEq, Repr

/-- `pathlib.Path.name`: base name with its extension. -/
def vname (f : VFile) : String := f.stem ++ f.suffix

/-- `str(path_video)`: the full path string. -/
def vpath (f : VFile) : String := f.dir ++ f.stem ++ f.suffix

/-- Result of a successful `Path.stat()` call: size plus the creation / 
modification timestamps (`st_birthtime` is absent on Linux, hence `Option`). -/
structure StatInfo where
  size : Nat
  birthtime : Option Int
  mtime : Int
deriving DecidableEq, Repr

/-- The `-m` command-line mode: `a` (append) or `w` (overwrite). -/
inductive PMode where
  | a
  | w
deriving DecidableEq, Repr

/-- One line of the persisted CSV file: the header line or a data row.  Field
serialization to delimited text is abstracted; a row carries its record. -/
inductive CsvLine where
  | header
  | data (r : MediaRecord)
deriving DecidableEq, Repr

/-- Python `'PRT' in s` substring test. -/
def hasSubPRT (s : String) : Bool :=
  hasInfixL ['P', 'R', 'T'] s.toList

/-- Embeds `process_single_video` (parsex.py:253-299).  The filesystem stat,
the external probe and the timestamp formatter are oracles; `none` from an
oracle is the exception caught at the unit boundary (parsex.py:297-299 and
the probe-failure early return at parsex.py:270-273). -/
def process_single_video (fmtTime : Int → String) (stat : VFile → Option StatInfo)
    (probeOut : VFile → Option ProbeData) (tag : String) (f : VFile) :
    Option MediaRecord :=
  match stat f with
  | none => none
  | some st =>
      let nm := f.stem
      let size_str := format_size st.size
      let create_time_str := fmtTime (st.birthtime.getD st.mtime)
      let pc := parse_filename_metadata
        (String.mk (nm.toList.map (fun c => if c = ' ' then '.' else c)))
      let tag_to := if hasSubPRT (toUpperL nm) then "PRT" else "XC"
      match (probeOut f).bind get_metadata_ffprobe with
      | none => none
      | some meta =>
          let res_label := get_res_label meta.width meta.height
          some { name := nm,
                 size := size_str,
                 duration := format_duration meta.duration,
                 collection := pc.1,
                 cast := pc.2,
                 tags := tag ++ ", " ++ res_label ++ ", " ++ tag_to,
                 path := vpath f,
                 bitrate := toString meta.bitrate ++ "kbps",
                 create_time := create_time_str,
                 fps := fmtFixed 2 meta.fps ++ " fps",
                 resolution := toString meta.width ++ "x" ++ toString meta.height,
                 audio_bitrate :=
                   if meta.audio_bitrate ≠ 0
                   then some (toString meta.audio_bitrate ++ "kbps") else none,
                 audio_channels := meta.audio_channels,
                 audio_sampling_rate :=
                   if meta.audio_sample_rate ≠ 0
                   then some (fmtFixed 1 ((meta.audio_sample_rate : ℚ) / 1000) ++ " kHz")
                   else none,
                 comment := meta.comment }

/-- Python dict insertion `d[k] = v`: overwrite in place if the key exists,
else append. -/
def dictInsert (acc : List (String × MediaRecord)) (k : String) (v : MediaRecord) :
    List (String × MediaRecord) :=
  if acc.any (fun p => p.1 == k) then
    acc.map (fun p => if p.1 == k then (k, v) else p)
  else acc ++ [(k, v)]

/-- The row loop of `get_existing_records` (parsex.py:71-73): each event is a
row yielded by the CSV reader or the exception it raised; on an exception the
mapping accumulated so far is returned (the `except` clause at parsex.py:75).
A row with a falsy name is skipped. -/
def readRows (acc : List (String × MediaRecord)) :
    List (Except Unit MediaRecord) → List (String × MediaRecord)
  | [] => acc
  | Except.error _ :: _ => acc
  | Except.ok r :: rest =>
      readRows (if r.name ≠ "" then dictInsert acc r.name r else acc) rest

/-- Embeds `get_existing_records` (parsex.py:63-78): `none` models a path
that does not exist; otherwise the row stream is folded into a name-keyed
mapping. -/
def get_existing_records :
    Option (List (Except Unit MediaRecord)) → List (String × MediaRecord)
  | none => []
  | some evs => readRows [] evs

/-- A header-shaped line occurring among the data lines would be yielded by
`csv.DictReader` as a row whose name cell is the literal string `"name"`;
only that cell matters to the mapping, so the other cells are arbitrary. -/
def headerRecord : MediaRecord :=
  { name := "name", size := none, duration := "", collection := "", cast := "",
    tags := "", path := "", bitrate := "", create_time := "", fps := "",
    resolution := "", audio_bitrate := none, audio_channels := 0,
    audio_sampling_rate := none, comment := "" }

/-- The row a `CsvLine` produces when read back as data. -/
def lineToRow : CsvLine → MediaRecord
  | CsvLine.header => headerRecord
  | CsvLine.data r => r

/-- `get_existing_records` applied to a stored catalog file that reads
cleanly: `csv.DictReader` consumes the first line as the header and yields
the remaining lines as rows. -/
def loadCatalog (file : Option (List CsvLine)) : List (String × MediaRecord) :=
  get_existing_records (file.map (fun lines =>
    match lines with
    | [] => []
    | _ :: rest => rest.map (fun l => Except.ok (lineToRow l))))

/-- Embeds `save_to_csv` (parsex.py:81-99) on the modelled file state
(`none` = the path does not exist).  A header is written when the mode is
overwrite, the file does not exist, or it is empty; mode `w` truncates and
mode `a` appends. -/
def save_to_csv (data_list : List MediaRecord) (csvState : Option (List CsvLine))
    (mode : PMode) : Option (List CsvLine) :=
  match data_list with
  | [] => csvState
  | _ :: _ =>
      let write_header : Bool := match mode, csvState with
        | PMode.w, _ => true
        | PMode.a, none => true
        | PMode.a, some [] => true
        | PMode.a, some (_ :: _) => false
      let base : List CsvLine := match mode, csvState with
        | PMode.w, _ => []
        | PMode.a, none => []
        | PMode.a, some lines => lines
      some (base ++ (if write_header then [CsvLine.header] else []) ++
        data_list.map CsvLine.data)

/-- The work set computed in `main` (parsex.py:317-322): in append mode,
discovered files whose `video.name` (stem plus extension) is not a key of the
loaded mapping; in overwrite mode, every discovered file. -/
def files_to_process (mode : PMode) (all_videos : List VFile)
    (csvState : Option (List CsvLine)) : List VFile :=
  match mode with
  | PMode.a =>
      let existing := loadCatalog csvState
      all_videos.filter (fun v => !(existing.any (fun p => p.1 == vname v)))
  | PMode.w => all_videos

/-- The aggregated success list (parsex.py:333-349): one unit of work per
work-set file, failed units omitted.  Thread completion order does not affect
any claim below (they are permutation-invariant), so the list is kept in
submission order. -/
def infoList (fmtTime : Int → String) (stat : VFile → Option StatInfo)
    (probeOut : VFile → Option ProbeData) (tag : String) (files : List VFile) :
    List MediaRecord :=
  files.filterMap (process_single_video fmtTime stat probeOut tag)

/-- Embeds the pipeline of `main` (parsex.py:317-353) from discovery to
persistence: compute the work set, return early when an append run has
nothing to do, otherwise process the work set and save, appending exactly
when the mode is append and the catalog file already exists. -/
def runMain (fmtTime : Int → String) (stat : VFile → Option StatInfo)
    (probeOut : VFile → Option ProbeData) (tag : String) (mode : PMode)
    (discovered : List VFile) (csvState : Option (List CsvLine)) :
    Option (List CsvLine) :=
  let fp := files_to_process mode discovered csvState
  match mode, fp with
  | PMode.a, [] => csvState
  | _, _ =>
      save_to_csv (infoList fmtTime stat probeOut tag fp) csvState
        (match mode, csvState with
         | PMode.a, some _ => PMode.a
         | _, _ => PMode.w)

/-- The names of the data rows of a modelled catalog file state. -/
def dataNames (st : Option (List CsvLine)) : List String :=
  (st.getD []).filterMap (fun l =>
    match l with
    | CsvLine.data r => some r.name
    | CsvLine.header => none)

/-- The number of data rows of a modelled catalog file state. -/
def countData (st : Option (List CsvLine)) : Nat :=
  (dataNames st).length

/-- Whether a line is the header line. -/
def isHeaderLine : CsvLine → Bool
  | CsvLine.header => true
  | CsvLine.data _ => false

/-! ## Concrete sample inputs used by witnesses and counterexamples -/

/-- A record with a given name and defaulted other fields (shape of a row
loaded from a previously written catalog). -/
def recN (nm : String) : MediaRecord :=
  { name := nm, size := none, duration := "", collection := "", cast := "",
    tags := "", path := "", bitrate := "", create_time := "", fps := "",
    resolution := "", audio_bitrate := none, audio_channels := 0,
    audio_sampling_rate := none, comment := "" }

/-- Discovered file `a.mp4`. -/
def fA : VFile := { stem := "a", suffix := ".mp4", dir := "" }

/-- Discovered file `a.mkv`: a different file with the same stem as `fA`. -/
def fAmkv : VFile := { stem := "a", suffix := ".mkv", dir := "" }

/-- Discovered file `b.mp4`. -/
def fB : VFile := { stem := "b", suffix := ".mp4", dir := "" }

/-- A timestamp-formatting oracle. -/
def tT : Int → String := fun _ => "2024/01/01 00:00"

/-- A stat oracle that always succeeds with a small file. -/
def statOK : VFile → Option StatInfo := fun _ => some { size := 100, birthtime := none, mtime := 0 }

/-- A stat oracle that always succeeds with a 1 TiB file. -/
def statHuge : VFile → Option StatInfo := fun _ => some { size := 1024 ^ 4, birthtime := none, mtime := 0 }

/-- A healthy video stream: 1920x1080 at 30/1 fps. -/
def vsOK : StreamInfo :=
  { codec_type := "video", width := some 1920, height := some 1080,
    r_frame_rate := some "30/1", bit_rate := none, channels := none,
    sample_rate := none }

/-- A video stream whose frame-rate string has a zero denominator. -/
def vsDen0 : StreamInfo :=
  { codec_type := "video", width := some 1920, height := some 1080,
    r_frame_rate := some "30/0", bit_rate := none, channels := none,
    sample_rate := none }

/-- A healthy decoded probe document. -/
def pdOK : ProbeData :=
  { streams := [vsOK],
    format := { duration := some 10, bit_rate := some 5000000, comment := none } }

/-- A decoded probe document whose video frame-rate denominator is zero. -/
def pdDen0 : ProbeData :=
  { streams := [vsDen0],
    format := { duration := some 10, bit_rate := some 5000000, comment := none } }

/-- A decoded probe document with no video stream at all. -/
def pdNoVideo : ProbeData :=
  { streams := [],
    format := { duration := some 10, bit_rate := some 5000000, comment := none } }

/-- A probe oracle that always succeeds with `pdOK`. -/
def probeOK : VFile → Option ProbeData := fun _ => some pdOK

/-- A probe oracle that always fails (process or JSON failure). -/
def probeFail : VFile → Option ProbeData := fun _ => none

/-! ## Lemmas: the date-token matcher -/

/-- Inversion for `eatDigit`. -/
theorem eatDigit_eq_some {t r : List Char} (h : eatDigit t = some r) :
    ∃ c, t = c :: r ∧ c.isDigit = true := by
  cases t with
  | nil => simp [eatDigit] at h
  | cons c t' =>
      by_cases hd : c.isDigit
      · simp [eatDigit, hd] at h
        exact ⟨c, by rw [h], hd⟩
      · simp [eatDigit, hd] at h

/-- Inversion for `eatDot`. -/
theorem eatDot_eq_some {t r : List Char} (h : eatDot t = some r) :
    t = '.' :: r := by
  cases t with
  | nil => simp [eatDot] at h
  | cons c t' =>
      by_cases hd : c = '.'
      · subst hd
        simp [eatDot] at h
        rw [h]
      · simp [eatDot, hd] at h

/-- Inversion for `eatDD`. -/
theorem eatDD_eq_some {t r : List Char} (h : eatDD t = some r) :
    ∃ a b, t = a :: b :: '.' :: r ∧ a.isDigit = true ∧ b.isDigit = true := by
  cases h1 : eatDigit t with
  | none => simp [eatDD, h1] at h
  | some r1 =>
      cases h2 : eatDigit r1 with
      | none => simp [eatDD, h1, h2] at h
      | some r2 =>
          have h3 : eatDot r2 = some r := by simpa [eatDD, h1, h2] using h
          obtain ⟨a, ha, hda⟩ := eatDigit_eq_some h1
          obtain ⟨b, hb, hdb⟩ := eatDigit_eq_some h2
          have h4 := eatDot_eq_some h3
          subst ha hb h4
          exact ⟨a, b, rfl, hda, hdb⟩

/-- Inversion for `matchD8tail`: the consumed text is a `dd.dd.dd` group and
its trailing dot. -/
theorem matchD8tail_eq_some {t r : List Char} (h : matchD8tail t = some r) :
    ∃ d, t = d ++ '.' :: r ∧ isD8 d = true := by
  cases h1 : eatDD t with
  | none => simp [matchD8tail, h1] at h
  | some r1 =>
      cases h2 : eatDD r1 with
      | none => simp [matchD8tail, h1, h2] at h
      | some r2 =>
          have h3 : eatDD r2 = some r := by simpa [matchD8tail, h1, h2] using h
          obtain ⟨a, b, ht, hda, hdb⟩ := eatDD_eq_some h1
          obtain ⟨c, d, ht2, hdc, hdd⟩ := eatDD_eq_some h2
          obtain ⟨e, f, ht3, hde, hdf⟩ := eatDD_eq_some h3
          subst ht2 ht3 ht
          refine ⟨[a, b, '.', c, d, '.', e, f], by simp, ?_⟩
          simp [isD8, hda, hdb, hdc, hdd, hde, hdf]

/-- Inversion for `matchD4tail`: the consumed text is a `dddd` group and its
trailing dot. -/
theorem matchD4tail_eq_some {t r : List Char} (h : matchD4tail t = some r) :
    ∃ d, t = d ++ '.' :: r ∧ isD4 d = true := by
  cases h1 : eatDigit t with
  | none => simp [matchD4tail, h1] at h
  | some r1 =>
      cases h2 : eatDigit r1 with
      | none => simp [matchD4tail, h1, h2] at h
      | some r2 =>
          have h3 : eatDD r2 = some r := by simpa [matchD4tail, h1, h2] using h
          obtain ⟨a, ha, hda⟩ := eatDigit_eq_some h1
          obtain ⟨b, hb, hdb⟩ := eatDigit_eq_some h2
          obtain ⟨c, d, ht, hdc, hdd⟩ := eatDD_eq_some h3
          subst hb ht ha
          refine ⟨[a, b, c, d], by simp, ?_⟩
          simp [isD4, hda, hdb, hdc, hdd]

/-- Soundness of the alternation at a fixed position. -/
theorem matchDateAndTail_eq_some {t r : List Char}
    (h : matchDateAndTail t = some r) :
    ∃ d, t = d ++ '.' :: r ∧ (isD8 d = true ∨ isD4 d = true) := by
  unfold matchDateAndTail at h
  cases h8 : matchD8tail t with
  | some r' =>
      rw [h8] at h
      obtain ⟨d, ht, hd⟩ := matchD8tail_eq_some h8
      cases h
      exact ⟨d, ht, Or.inl hd⟩
  | none =>
      rw [h8] at h
      obtain ⟨d, ht, hd⟩ := matchD4tail_eq_some h
      exact ⟨d, ht, Or.inr hd⟩

/-- A digit is not a dot. -/
theorem isDigit_ne_dot {c : Char} (h : c.isDigit = true) : ¬(c = '.') := by
  intro hc
  subst hc
  exact absurd h (by decide)

/-- Completeness: a `dd.dd.dd` group followed by a dot is matched. -/
theorem matchDateAndTail_of_isD8 {d r : List Char} (h : isD8 d = true) :
    matchDateAndTail (d ++ '.' :: r) = some r := by
  unfold isD8 at h
  split at h
  next a b c e f g h2 i =>
    simp only [Bool.and_eq_true, decide_eq_true_eq] at h
    obtain ⟨⟨⟨⟨⟨⟨⟨ha, hb⟩, hc⟩, he⟩, hf⟩, hg⟩, hh⟩, hi⟩ := h
    subst hc hg
    simp [matchDateAndTail, matchD8tail, eatDD, eatDigit, eatDot, ha, hb, he,
      hf, hh, hi]
  next => exact absurd h (by simp)

/-- Completeness: a `dddd` group followed by a dot is matched (the `dd.dd.dd`
alternative fails there because its third character is a digit, not a dot). -/
theorem matchDateAndTail_of_isD4 {d r : List Char} (h : isD4 d = true) :
    matchDateAndTail (d ++ '.' :: r) = some r := by
  unfold isD4 at h
  split at h
  next a b c e =>
    simp only [Bool.and_eq_true, decide_eq_true_eq] at h
    obtain ⟨⟨⟨ha, hb⟩, hc⟩, he⟩ := h
    simp [matchDateAndTail, matchD8tail, matchD4tail, eatDD, eatDigit, eatDot,
      ha, hb, hc, he, isDigit_ne_dot hc]
  next => exact absurd h (by simp)

/-- Soundness of the prefix scan: a successful search exhibits a dot position
after which a date token (and its dot) matches. -/
theorem reSearchGo_eq_some {rem : List Char} :
    ∀ {pre p r : List Char}, reSearchGo pre rem = some (p, r) →
      ∃ ext tail, rem = ext ++ '.' :: tail ∧ matchDateAndTail tail = some r := by
  induction rem with
  | nil => intro pre p r h; simp [reSearchGo] at h
  | cons c rest ih =>
      intro pre p r h
      unfold reSearchGo at h
      by_cases hc : c = '.'
      · rw [if_pos hc] at h
        cases hm : matchDateAndTail rest with
        | some r' =>
            rw [hm] at h
            cases h
            exact ⟨[], rest, by rw [hc]; rfl, hm⟩
        | none =>
            rw [hm] at h
            obtain ⟨ext, tail, heq, hmt⟩ := ih h
            exact ⟨c :: ext, tail, by rw [heq]; rfl, hmt⟩
      · rw [if_neg hc] at h
        obtain ⟨ext, tail, heq, hmt⟩ := ih h
        exact ⟨c :: ext, tail, by rw [heq]; rfl, hmt⟩

/-- Completeness of the prefix scan: if some dot position admits a date-token
match, the scan succeeds. -/
theorem reSearchGo_isSome {tail : List Char} (h : matchDateAndTail tail ≠ none) :
    ∀ (ext : List Char) {pre : List Char},
      (reSearchGo pre (ext ++ '.' :: tail)).isSome = true := by
  intro ext
  induction ext with
  | nil =>
      intro pre
      cases hm : matchDateAndTail tail with
      | none => exact absurd hm h
      | some r => simp [reSearchGo, hm]
  | cons c ext' ih =>
      intro pre
      by_cases hc : c = '.'
      · cases hm : matchDateAndTail (ext' ++ '.' :: tail) with
        | some r => simp [reSearchGo, hc, hm]
        | none =>
            show (reSearchGo pre ((c :: ext') ++ '.' :: tail)).isSome = true
            rw [List.cons_append, reSearchGo, if_pos hc, hm]
            exact ih
      · show (reSearchGo pre ((c :: ext') ++ '.' :: tail)).isSome = true
        rw [List.cons_append, reSearchGo, if_neg hc]
        exact ih

/-- A successful regex search witnesses a date token in the string. -/
theorem hasDateToken_of_reSearchL {f : String} {p r : List Char}
    (h : reSearchL f.toList = some (p, r)) : hasDateToken f := by
  cases hl : f.toList with
  | nil => rw [hl] at h; simp [reSearchL] at h
  | cons c rest0 =>
      rw [hl] at h
      obtain ⟨ext, tail, heq, hmt⟩ := @reSearchGo_eq_some rest0 [c] p r h
      obtain ⟨d, ht, hd⟩ := matchDateAndTail_eq_some hmt
      refine ⟨c :: ext, d, r, by simp, ?_, hd⟩
      rw [hl, heq, ht]
      simp

/-- A date token in the string makes the regex search succeed. -/
theorem reSearchL_isSome_of_hasDateToken {f : String} (h : hasDateToken f) :
    (reSearchL f.toList).isSome = true := by
  obtain ⟨pre, d, rest, hne, heq, hd⟩ := h
  have hmt : matchDateAndTail (d ++ '.' :: rest) ≠ none := by
    cases hd with
    | inl h8 => rw [matchDateAndTail_of_isD8 h8]; simp
    | inr h4 => rw [matchDateAndTail_of_isD4 h4]; simp
  cases pre with
  | nil => exact absurd rfl hne
  | cons c pre' =>
      rw [heq]
      simp only [List.cons_append, reSearchL]
      exact reSearchGo_isSome hmt pre'

/-- The head of Python `split('.')` is the text before the first dot. -/
theorem splitDotGo_headD {l : List Char} :
    ∀ {cur : List Char},
      (splitDotGo cur l).headD [] = cur.reverse ++ l.takeWhile (fun c => !(c = '.')) := by
  induction l with
  | nil => intro cur; simp [splitDotGo]
  | cons c rest ih =>
      intro cur
      by_cases hc : c = '.'
      · subst hc
        simp [splitDotGo]
      · simp only [splitDotGo, if_neg hc, List.takeWhile]
        rw [ih]
        simp [hc]

/-! ## Lemmas: the scheduler and the catalog writer -/

/-- A successfully built record is named by the file's stem. -/
theorem process_single_video_name {fmtTime : Int → String}
    {stat : VFile → Option StatInfo} {probeOut : VFile → Option ProbeData}
    {tag : String} {f : VFile} {r : MediaRecord}
    (h : process_single_video fmtTime stat probeOut tag f = some r) :
    r.name = f.stem := by
  unfold process_single_video at h
  cases hs : stat f with
  | none => rw [hs] at h; simp at h
  | some st =>
      rw [hs] at h
      cases hm : (probeOut f).bind get_metadata_ffprobe with
      | none => simp [hm] at h
      | some meta =>
          simp only [hm] at h
          cases h
          rfl

/-- A successfully built record has the work-set file's size field. -/
theorem process_single_video_size {fmtTime : Int → String}
    {stat : VFile → Option StatInfo} {probeOut : VFile → Option ProbeData}
    {tag : String} {f : VFile} {st : StatInfo} {r : MediaRecord}
    (hs : stat f = some st)
    (h : process_single_video fmtTime stat probeOut tag f = some r) :
    r.size = format_size st.size := by
  unfold process_single_video at h
  rw [hs] at h
  cases hm : (probeOut f).bind get_metadata_ffprobe with
  | none => simp [hm] at h
  | some meta =>
      simp only [hm] at h
      cases h
      rfl

/-- When every unit of work succeeds, the aggregated records are in
one-to-one correspondence with the work-set files, named by their stems. -/
theorem infoList_names {fmtTime : Int → String} {stat : VFile → Option StatInfo}
    {probeOut : VFile → Option ProbeData} {tag : String} {files : List VFile}
    (h : ∀ f ∈ files, (process_single_video fmtTime stat probeOut tag f).isSome = true) :
    (infoList fmtTime stat probeOut tag files).map (fun r => r.name) =
      files.map (fun f => f.stem) := by
  induction files with
  | nil => simp [infoList]
  | cons f fs ih =>
      have hf := h f (List.mem_cons_self f fs)
      obtain ⟨r, hr⟩ := Option.isSome_iff_exists.mp hf
      have hrest : ∀ g ∈ fs, (process_single_video fmtTime stat probeOut tag g).isSome = true :=
        fun g hg => h g (List.mem_cons_of_mem f hg)
      simp only [infoList, List.filterMap_cons, hr, List.map_cons]
      rw [process_single_video_name hr]
      exact congrArg (fun l => f.stem :: l) (ih hrest)

/-- A sibling unit's success always reaches the aggregated list: no failure
elsewhere removes it. -/
theorem mem_infoList_of_success {fmtTime : Int → String}
    {stat : VFile → Option StatInfo} {probeOut : VFile → Option ProbeData}
    {tag : String} {files : List VFile} {g : VFile} {r : MediaRecord}
    (hg : g ∈ files) (hr : process_single_video fmtTime stat probeOut tag g = some r) :
    r ∈ infoList fmtTime stat probeOut tag files :=
  List.mem_filterMap.mpr ⟨g, hg, hr⟩

/-- If every work-set file with a given stem fails, that stem names no
aggregated record. -/
theorem stem_not_mem_infoList {fmtTime : Int → String}
    {stat : VFile → Option StatInfo} {probeOut : VFile → Option ProbeData}
    {tag : String} {files : List VFile} {s : String}
    (hfail : ∀ g ∈ files, g.stem = s →
      process_single_video fmtTime stat probeOut tag g = none) :
    s ∉ (infoList fmtTime stat probeOut tag files).map (fun r => r.name) := by
  intro hmem
  obtain ⟨r, hrmem, hname⟩ := List.mem_map.mp hmem
  obtain ⟨g, hg, hgr⟩ := List.mem_filterMap.mp hrmem
  have : g.stem = s := by rw [← process_single_video_name hgr, hname]
  rw [hfail g hg this] at hgr
  exact Option.noConfusion hgr

/-- Every data-row name of a written file comes either from the prior file
state or from the records just written. -/
theorem dataNames_save_to_csv {data : List MediaRecord}
    {cs : Option (List CsvLine)} {m : PMode} {n : String}
    (h : n ∈ dataNames (save_to_csv data cs m)) :
    n ∈ dataNames cs ∨ n ∈ data.map (fun r => r.name) := by
  cases data with
  | nil => exact Or.inl h
  | cons d ds =>
      simp only [save_to_csv, dataNames, Option.getD_some, List.filterMap_append] at h
      rcases List.mem_append.mp h with h' | h'
      · rcases List.mem_append.mp h' with hbase | hhdr
        · left
          rcases m with _ | _
          · cases cs with
            | none => simp at hbase
            | some lines => simpa [dataNames] using hbase
          · simp at hbase
        · exfalso
          rcases m with _ | _
          · cases cs with
            | none => simp at hhdr
            | some lines =>
                cases lines with
                | nil => simp at hhdr
                | cons a l => simp at hhdr
          · simp at hhdr
      · right
        obtain ⟨l, hl, hln⟩ := List.mem_filterMap.mp h'
        obtain ⟨r, hrmem, hrl⟩ := List.mem_map.mp hl
        subst hrl
        simp only at hln
        cases hln
        exact List.mem_map.mpr ⟨r, hrmem, rfl⟩

/-- The row loop returns the mapping accumulated so far when the reader
raises mid-stream: rows read before the failure are kept. -/
theorem readRows_error_stops {pre : List (Except Unit MediaRecord)}
    (hpre : ∀ e ∈ pre, ∃ r, e = Except.ok r) :
    ∀ {acc : List (String × MediaRecord)} {rest},
      readRows acc (pre ++ Except.error () :: rest) = readRows acc pre := by
  induction pre with
  | nil => intro acc rest; simp [readRows]
  | cons e ps ih =>
      intro acc rest
      obtain ⟨r, he⟩ := hpre e (List.mem_cons_self e ps)
      subst he
      simp only [List.cons_append, readRows]
      exact ih (fun e' h' => hpre e' (List.mem_cons_of_mem _ h'))

/-! ## Claims -/

/-- Claim C1: the spec says the append-mode work set is exactly the
discovered files whose stem (the catalog key) is not a key of the loaded
mapping.  The code compares `video.name` — stem plus extension — against
stem keys, so a discovered file whose stem is a catalog key still enters the
work set: with catalog key `a` and discovered file `a.mp4`, the work set is
`[a.mp4]` instead of `[]`. -/
theorem claim1_workset_keeps_cataloged_stem :
    files_to_process PMode.a [fA]
        (some [CsvLine.header, CsvLine.data (recN "a")]) = [fA] ∧
    (loadCatalog (some [CsvLine.header, CsvLine.data (recN "a")])).map
        (fun p => p.1) = ["a"] ∧
    fA.stem = "a" := by
  decide

/-- Claim C2: the spec says a second append run over an unchanged tree and
catalog adds zero rows.  Because the work-set comparison uses the full file
name against stem keys, the second run reprocesses the same file and appends
its row again: one data row after the first run, two after the second. -/
theorem claim2_second_append_run_adds_rows :
    countData (runMain tT statOK probeOK "" PMode.a [fA] none) = 1 ∧
    countData (runMain tT statOK probeOK "" PMode.a [fA]
      (runMain tT statOK probeOK "" PMode.a [fA] none)) = 2 := by
  decide

/-- Claim C4, counterexample: a read failure after one well-formed row does
not yield an empty mapping — the row read before the failure is kept. -/
theorem claim4_counterexample :
    get_existing_records (some [Except.ok (recN "a"), Except.error ()]) =
      [("a", recN "a")] ∧
    ([("a", recN "a")] : List (String × MediaRecord)) ≠ [] := by
  decide

/-- Claim C4, amended: loading returns an empty mapping when the path does
not exist; a mid-read failure is logged and returns the (possibly nonempty)
mapping of the rows read before the failure; a row lacking a name value is
skipped. -/
theorem claim4_load_rules :
    (get_existing_records none = []) ∧
    (∀ pre rest, (∀ e ∈ pre, ∃ r, e = Except.ok r) →
      get_existing_records (some (pre ++ Except.error () :: rest)) =
        get_existing_records (some pre)) ∧
    (∀ (r : MediaRecord) rest, r.name = "" →
      get_existing_records (some (Except.ok r :: rest)) =
        get_existing_records (some rest)) := by
  refine ⟨rfl, ?_, ?_⟩
  · intro pre rest hpre
    exact readRows_error_stops hpre
  · intro r rest h
    simp [get_existing_records, readRows, h]

/-- Witness for the amended C4 rules at concrete inputs. -/
theorem claim4_witness :
    get_existing_records none = [] ∧
    get_existing_records
        (some ([Except.ok (recN "a")] ++ Except.error () :: [Except.ok (recN "b")])) =
      get_existing_records (some [Except.ok (recN "a")]) ∧
    get_existing_records (some (Except.ok (recN "") :: [Except.ok (recN "b")])) =
      get_existing_records (some [Except.ok (recN "b")]) :=
  ⟨claim4_load_rules.1,
   claim4_load_rules.2.1 [Except.ok (recN "a")] [Except.ok (recN "b")]
     (by intro e he; simp at he; exact ⟨recN "a", he⟩),
   claim4_load_rules.2.2 (recN "") [Except.ok (recN "b")] rfl⟩

/-- Claim C9: the writer is a no-op on an empty record list; writing to a
missing or empty file emits the header exactly once before the data rows;
appending to a non-empty file emits no header. -/
theorem claim9_writer_header_rule :
    (∀ cs m, save_to_csv [] cs m = cs) ∧
    (∀ (d : MediaRecord) (ds : List MediaRecord) m,
      save_to_csv (d :: ds) none m =
          some (CsvLine.header :: (d :: ds).map CsvLine.data) ∧
      save_to_csv (d :: ds) (some []) m =
          some (CsvLine.header :: (d :: ds).map CsvLine.data)) ∧
    (∀ (d : MediaRecord) (ds : List MediaRecord) (l : CsvLine) (lines : List CsvLine),
      save_to_csv (d :: ds) (some (l :: lines)) PMode.a =
        some ((l :: lines) ++ (d :: ds).map CsvLine.data)) ∧
    (∀ rows : List MediaRecord,
      (CsvLine.header :: rows.map CsvLine.data).countP isHeaderLine = 1 ∧
      ∀ lines : List CsvLine,
        (lines ++ rows.map CsvLine.data).countP isHeaderLine =
          lines.countP isHeaderLine) := by
  have hzero : ∀ rows : List MediaRecord,
      (rows.map CsvLine.data).countP isHeaderLine = 0 := by
    intro rows
    induction rows with
    | nil => rfl
    | cons r rs ih => simp [List.countP_cons, isHeaderLine, ih]
  refine ⟨fun cs m => rfl, ?_, ?_, ?_⟩
  · intro d ds m
    rcases m with _ | _ <;> exact ⟨rfl, rfl⟩
  · intro d ds l lines
    simp [save_to_csv]
  · intro rows
    refine ⟨?_, ?_⟩
    · simp [List.countP_cons, isHeaderLine, hzero rows]
    · intro lines
      simp [List.countP_append, hzero rows]

/-- Witness for the C9 writer rules at concrete inputs. -/
theorem claim9_witness :
    save_to_csv [recN "a"] none PMode.a =
      some [CsvLine.header, CsvLine.data (recN "a")] ∧
    save_to_csv [recN "a"] (some [CsvLine.header]) PMode.a =
      some [CsvLine.header, CsvLine.data (recN "a")] ∧
    save_to_csv [] (some [CsvLine.header]) PMode.w = some [CsvLine.header] := by
  refine ⟨?_, ?_, claim9_writer_header_rule.1 (some [CsvLine.header]) PMode.w⟩
  · have h := (claim9_writer_header_rule.2.1 (recN "a") [] PMode.a).1
    simpa using h
  · have h := claim9_writer_header_rule.2.2.1 (recN "a") [] CsvLine.header []
    simpa using h

/-- A name among the data rows of a file state comes from a data line. -/
theorem mem_dataNames {cs : Option (List CsvLine)} {n : String}
    (h : n ∈ dataNames cs) :
    ∃ r, CsvLine.data r ∈ cs.getD [] ∧ r.name = n := by
  obtain ⟨l, hl, hmatch⟩ := List.mem_filterMap.mp h
  cases l with
  | header => simp at hmatch
  | data r =>
      simp only at hmatch
      cases hmatch
      exact ⟨r, hl, rfl⟩

/-- Claim C5, counterexample: an overwrite run over two distinct discovered
files with the same stem (`a.mp4` and `a.mkv`) persists two rows both named
`a` — not one row per unique discovered name, and `name` is not unique. -/
theorem claim5_counterexample :
    dataNames (runMain tT statOK probeOK "" PMode.w [fA, fAmkv] none) =
      ["a", "a"] ∧
    ¬ (["a", "a"] : List String).Nodup := by
  decide

/-- Claim C5, amended: an overwrite run whose work set is nonempty, with
every unit succeeding, replaces any prior catalog content with a header
followed by exactly one row per discovered file, named by its stem; the names
are unique provided the discovered stems are pairwise distinct (files sharing
a stem produce duplicate names, as the counterexample shows). -/
theorem claim5_overwrite_unique (fmtTime : Int → String)
    (stat : VFile → Option StatInfo) (probeOut : VFile → Option ProbeData)
    (tag : String) (discovered : List VFile) (csvState : Option (List CsvLine))
    (hne : discovered ≠ [])
    (hsucc : ∀ f ∈ discovered,
      (process_single_video fmtTime stat probeOut tag f).isSome = true)
    (hnd : (discovered.map (fun f => f.stem)).Nodup) :
    runMain fmtTime stat probeOut tag PMode.w discovered csvState =
      some (CsvLine.header ::
        (infoList fmtTime stat probeOut tag discovered).map CsvLine.data) ∧
    (infoList fmtTime stat probeOut tag discovered).map (fun r => r.name) =
      discovered.map (fun f => f.stem) ∧
    ((infoList fmtTime stat probeOut tag discovered).map (fun r => r.name)).Nodup := by
  have hnames := infoList_names hsucc
  have hinne : infoList fmtTime stat probeOut tag discovered ≠ [] := by
    intro h0
    rw [h0] at hnames
    have : discovered = [] := List.map_eq_nil_iff.mp hnames.symm
    exact hne this
  obtain ⟨d, ds, hcons⟩ := List.exists_cons_of_ne_nil hinne
  have hrun : runMain fmtTime stat probeOut tag PMode.w discovered csvState =
      save_to_csv (infoList fmtTime stat probeOut tag discovered) csvState
        PMode.w := rfl
  refine ⟨?_, hnames, by rw [hnames]; exact hnd⟩
  rw [hrun, hcons]
  simp [save_to_csv]

/-- Witness for the amended C5 at a concrete overwrite run with junk prior
catalog content. -/
theorem claim5_witness :
    runMain tT statOK probeOK "" PMode.w [fA, fB]
        (some [CsvLine.data (recN "z")]) =
      some (CsvLine.header ::
        (infoList tT statOK probeOK "" [fA, fB]).map CsvLine.data) ∧
    (infoList tT statOK probeOK "" [fA, fB]).map (fun r => r.name) =
      ["a", "b"] ∧
    ((infoList tT statOK probeOK "" [fA, fB]).map (fun r => r.name)).Nodup := by
  have h := claim5_overwrite_unique tT statOK probeOK "" [fA, fB]
    (some [CsvLine.data (recN "z")]) (by decide) (by decide) (by decide)
  exact ⟨h.1, h.2.1.trans (by decide), h.2.2⟩

/-- Claim C6, counterexample: with catalog row `a` from an earlier run and
discovered file `a.mp4` whose probe fails, the file is in the work set (the
name-versus-stem comparison readmits it) and after the run its stem still
appears in the persisted catalog — the claim says a work-set file whose probe
fails appears nowhere in the catalog after the run. -/
theorem claim6_counterexample :
    fA ∈ files_to_process PMode.a [fA]
        (some [CsvLine.header, CsvLine.data (recN "a")]) ∧
    process_single_video tT statOK probeFail "" fA = none ∧
    fA.stem = "a" ∧
    "a" ∈ dataNames (runMain tT statOK probeFail "" PMode.a [fA]
      (some [CsvLine.header, CsvLine.data (recN "a")])) := by
  decide

/-- Claim C6, amended: a unit failure is absorbed at the unit boundary — the
run still aggregates every sibling success — and a failed file contributes no
new row: if every work-set file sharing its stem fails, its stem names no
aggregated record, and it is absent from the whole persisted catalog provided
no prior row already bore it (a prior row can survive, as the counterexample
shows, because the work-set comparison uses the full name against stem
keys). -/
theorem claim6_failure_isolation (fmtTime : Int → String)
    (stat : VFile → Option StatInfo) (probeOut : VFile → Option ProbeData)
    (tag : String) (mode : PMode) (discovered : List VFile)
    (csvState : Option (List CsvLine)) (f : VFile)
    (hf : f ∈ files_to_process mode discovered csvState)
    (hfailf : process_single_video fmtTime stat probeOut tag f = none) :
    (∀ g r, g ∈ files_to_process mode discovered csvState →
      process_single_video fmtTime stat probeOut tag g = some r →
      r ∈ infoList fmtTime stat probeOut tag
        (files_to_process mode discovered csvState)) ∧
    ((∀ g ∈ files_to_process mode discovered csvState, g.stem = f.stem →
        process_single_video fmtTime stat probeOut tag g = none) →
      f.stem ∉ (infoList fmtTime stat probeOut tag
        (files_to_process mode discovered csvState)).map (fun r => r.name)) ∧
    ((∀ g ∈ files_to_process mode discovered csvState, g.stem = f.stem →
        process_single_video fmtTime stat probeOut tag g = none) →
      (∀ r, CsvLine.data r ∈ csvState.getD [] → r.name ≠ f.stem) →
      f.stem ∉ dataNames
        (runMain fmtTime stat probeOut tag mode discovered csvState)) := by
  refine ⟨fun g r hg hgr => mem_infoList_of_success hg hgr,
    fun hfail => stem_not_mem_infoList hfail, ?_⟩
  intro hfail hold hmem
  rcases mode with _ | _
  · cases hfp : files_to_process PMode.a discovered csvState with
    | nil =>
        rw [hfp] at hf
        exact absurd hf (List.not_mem_nil f)
    | cons x xs =>
        cases csvState with
        | none =>
            have hrm : runMain fmtTime stat probeOut tag PMode.a discovered none =
                save_to_csv (infoList fmtTime stat probeOut tag (x :: xs)) none
                  PMode.w := by
              simp only [runMain, hfp]
            rw [hrm] at hmem
            rcases dataNames_save_to_csv hmem with hprior | hnew
            · obtain ⟨r, hr, hrn⟩ := mem_dataNames hprior
              exact hold r hr hrn
            · exact stem_not_mem_infoList hfail (hfp ▸ hnew)
        | some lines =>
            have hrm : runMain fmtTime stat probeOut tag PMode.a discovered
                  (some lines) =
                save_to_csv (infoList fmtTime stat probeOut tag (x :: xs))
                  (some lines) PMode.a := by
              simp only [runMain, hfp]
            rw [hrm] at hmem
            rcases dataNames_save_to_csv hmem with hprior | hnew
            · obtain ⟨r, hr, hrn⟩ := mem_dataNames hprior
              exact hold r hr hrn
            · exact stem_not_mem_infoList hfail (hfp ▸ hnew)
  · have hrm : runMain fmtTime stat probeOut tag PMode.w discovered csvState =
        save_to_csv (infoList fmtTime stat probeOut tag discovered) csvState
          PMode.w := rfl
    rw [hrm] at hmem
    rcases dataNames_save_to_csv hmem with hprior | hnew
    · obtain ⟨r, hr, hrn⟩ := mem_dataNames hprior
      exact hold r hr hrn
    · exact stem_not_mem_infoList hfail hnew

/-- Witness for the amended C6: a fresh append run over one file whose probe
fails yields no aggregated record named by its stem and no catalog row. -/
theorem claim6_witness :
    "a" ∉ (infoList tT statOK probeFail ""
      (files_to_process PMode.a [fA] none)).map (fun r => r.name) ∧
    "a" ∉ dataNames (runMain tT statOK probeFail "" PMode.a [fA] none) := by
  have h := claim6_failure_isolation tT statOK probeFail "" PMode.a [fA] none fA
    (by decide) (by decide)
  refine ⟨h.2.1 (by decide), h.2.2 (by decide) ?_⟩
  intro r hr
  exact absurd hr (List.not_mem_nil _)

/-- Claim C3, counterexample: a probe document whose video stream carries the
frame-rate string `30/0` makes the probe fail (return `none`) — the dynamic
evaluation of the rate string raises on the zero denominator — whereas the
claim says the probe succeeds with `fps = 0`. -/
theorem claim3_counterexample :
    pdDen0.streams.find? (fun s => s.codec_type == "video") = some vsDen0 ∧
    vsDen0.r_frame_rate = some "30/0" ∧
    get_metadata_ffprobe pdDen0 = none := by
  decide

/-- Claim C3, amended: with no video stream the probe succeeds and returns
`fps = 0`; with a video stream whose frame-rate string is `"<num>/<den>"`
with `den = 0`, the evaluation raises and the whole probe fails, returning
`none` (the frame rate is computed by `eval`, not by a safe rational
parse). -/
theorem claim3_fps_rules :
    (∀ data : ProbeData,
      data.streams.find? (fun s => s.codec_type == "video") = none →
      ∃ m, get_metadata_ffprobe data = some m ∧ m.fps = 0) ∧
    (∀ (data : ProbeData) (vs : StreamInfo) (s a b : String) (n : Nat),
      data.streams.find? (fun s => s.codec_type == "video") = some vs →
      vs.r_frame_rate = some s →
      splitSlashL s = [a, b] →
      pyIntLit a = some n →
      pyIntLit b = some 0 →
      get_metadata_ffprobe data = none) := by
  constructor
  · intro data hfind
    unfold get_metadata_ffprobe
    rw [hfind]
    exact ⟨_, rfl, rfl⟩
  · intro data vs s a b n hfind hr hsplit ha hb
    simp [get_metadata_ffprobe, hfind, hr, pyEvalFrac, hsplit, ha, hb]

/-- Witness for the amended C3 at concrete probe documents. -/
theorem claim3_witness :
    (∃ m, get_metadata_ffprobe pdNoVideo = some m ∧ m.fps = 0) ∧
    get_metadata_ffprobe pdDen0 = none :=
  ⟨claim3_fps_rules.1 pdNoVideo (by decide),
   claim3_fps_rules.2 pdDen0 vsDen0 "30/0" "30" "0" 30 (by decide) rfl
     (by decide) (by decide) (by decide)⟩

/-- Claim C7: when the date token is found, the post-date token list (after
truncating at `XXX`) has more than 3 tokens, and contains the exact-case
token `And` first at index `idx`, the cast is assembled as: for `idx < 3`,
the tokens before `idx`, a comma and space, then the tokens after `idx` (at
most the first two if more than two follow); for `idx ≥ 3`, the first two
tokens. -/
theorem claim7_cast_with_and (f : String) (pre rest : List Char)
    (ms : List String) (idx : Nat)
    (h1 : reSearchL f.toList = some (pre, rest))
    (h2 : truncateAtXXX (splitDotL rest) = ms)
    (h3 : 3 < ms.length)
    (h4 : ms.contains "And" = true)
    (h5 : ms.indexOf "And" = idx) :
    (parse_filename_metadata f).2 =
      if idx < 3 then
        String.intercalate " " (ms.take idx) ++ ", " ++
          (if (ms.drop (idx + 1)).length ≤ 2 then
            String.intercalate " " (ms.drop (idx + 1))
          else String.intercalate " " ((ms.drop (idx + 1)).take 2))
      else String.intercalate " " (ms.take 2) := by
  have hcast : castFromMatches ms =
      if idx < 3 then
        String.intercalate " " (ms.take idx) ++ ", " ++
          (if (ms.drop (idx + 1)).length ≤ 2 then
            String.intercalate " " (ms.drop (idx + 1))
          else String.intercalate " " ((ms.drop (idx + 1)).take 2))
      else String.intercalate " " (ms.take 2) := by
    unfold castFromMatches
    rw [if_neg (by omega), h4, h5]
    simp
  simp only [parse_filename_metadata, h1]
  simpa [h2] using hcast

/-- Witness for C7: the spec's own example
`parse("Show.2024.Carol.And.Dave.Eve")` yields cast `"Carol, Dave Eve"`. -/
theorem claim7_witness :
    (parse_filename_metadata "Show.2024.Carol.And.Dave.Eve").2 =
      "Carol, Dave Eve" := by
  have h := claim7_cast_with_and "Show.2024.Carol.And.Dave.Eve"
    "Show".toList "Carol.And.Dave.Eve".toList ["Carol", "And", "Dave", "Eve"] 1
    (by decide) (by decide) (by decide) (by decide) (by decide)
  rw [h]
  decide

/-- Claim C8: for a filename with no recognizable date token — no nonempty
prefix followed by a dot, a `dd.dd.dd` or dot-bounded `dddd` group, and a dot
— the parser returns the segment before the first dot (or `"Unknown"` when
there is no dot) as the collection, and `"Unknown"` as the cast.  The parser
is a total function, so it is deterministic, performs no I/O and never
fails. -/
theorem claim8_no_date_defaults (f : String) (h : ¬ hasDateToken f) :
    parse_filename_metadata f =
      ((if f.toList.contains '.' then
          String.mk (f.toList.takeWhile (fun c => !(c = '.')))
        else "Unknown"), "Unknown") := by
  cases hr : reSearchL f.toList with
  | some pr =>
      obtain ⟨p, r⟩ := pr
      exact absurd (hasDateToken_of_reSearchL hr) h
  | none =>
      simp only [parse_filename_metadata, hr, splitDotGo_headD,
        List.reverse_nil, List.nil_append]

/-- Witness for C8 at a concrete dateless filename. -/
theorem claim8_witness :
    ¬ hasDateToken "Alpha.Beta.Gamma" ∧
    parse_filename_metadata "Alpha.Beta.Gamma" = ("Alpha", "Unknown") := by
  have hn : ¬ hasDateToken "Alpha.Beta.Gamma" := by
    intro hd
    have hs := reSearchL_isSome_of_hasDateToken hd
    rw [show reSearchL "Alpha.Beta.Gamma".toList = none from by decide] at hs
    simp at hs
  refine ⟨hn, ?_⟩
  rw [claim8_no_date_defaults "Alpha.Beta.Gamma" hn]
  decide

/-- Claim C10: the size formatter returns `none` for every size of at least
`1024 ^ 4` bytes (1 TiB) — the unit loop runs out — so such a record's size
field is `None`; below that bound it returns a string carrying one of the
units B, KB, MB, GB. -/
theorem claim10_size_bound :
    (∀ n : Nat, 1024 ^ 4 ≤ n → format_size n = none) ∧
    (∀ n : Nat, n < 1024 ^ 4 → ∃ p,
      format_size n = some (p ++ "B") ∨ format_size n = some (p ++ "KB") ∨
      format_size n = some (p ++ "MB") ∨ format_size n = some (p ++ "GB")) ∧
    (∀ (fmtTime : Int → String) (stat : VFile → Option StatInfo)
        (probeOut : VFile → Option ProbeData) (tag : String) (f : VFile)
        (st : StatInfo) (r : MediaRecord),
      stat f = some st → 1024 ^ 4 ≤ st.size →
      process_single_video fmtTime stat probeOut tag f = some r →
      r.size = none) := by
  have h0 : (0 : ℚ) < 1024 := by norm_num
  have hnone : ∀ n : Nat, 1024 ^ 4 ≤ n → format_size n = none := by
    intro n hn
    have hn' : (1099511627776 : ℕ) ≤ n := by norm_num at hn; exact hn
    have hc' : (1099511627776 : ℚ) ≤ (n : ℚ) := by exact_mod_cast hn'
    have h1 : ¬ ((n : ℚ) < 1024) := by
      rw [not_lt]
      linarith
    have h2 : ¬ ((n : ℚ) / 1024 < 1024) := by
      rw [not_lt, le_div_iff₀ h0]
      linarith
    have h3 : ¬ ((n : ℚ) / 1024 / 1024 < 1024) := by
      rw [not_lt, div_div, le_div_iff₀ (by norm_num : (0 : ℚ) < 1024 * 1024)]
      linarith
    have h4 : ¬ ((n : ℚ) / 1024 / 1024 / 1024 < 1024) := by
      rw [not_lt, div_div, div_div,
        le_div_iff₀ (by norm_num : (0 : ℚ) < 1024 * (1024 * 1024))]
      linarith
    simp only [format_size, format_size_go, if_neg h1, if_neg h2, if_neg h3,
      if_neg h4]
  refine ⟨hnone, ?_, ?_⟩
  · intro n hn
    by_cases b1 : (n : ℚ) < 1024
    · exact ⟨fmtFixed 1 (n : ℚ) ++ " ",
        Or.inl (by simp [format_size, format_size_go, b1])⟩
    · by_cases b2 : (n : ℚ) / 1024 < 1024
      · exact ⟨fmtFixed 1 ((n : ℚ) / 1024) ++ " ",
          Or.inr (Or.inl (by simp [format_size, format_size_go, b1, b2]))⟩
      · by_cases b3 : (n : ℚ) / 1024 / 1024 < 1024
        · exact ⟨fmtFixed 1 ((n : ℚ) / 1024 / 1024) ++ " ",
            Or.inr (Or.inr (Or.inl
              (by simp [format_size, format_size_go, b1, b2, b3])))⟩
        · have b4 : (n : ℚ) / 1024 / 1024 / 1024 < 1024 := by
            rw [div_div, div_div,
              div_lt_iff₀ (by norm_num : (0 : ℚ) < 1024 * (1024 * 1024))]
            have : (n : ℚ) < (1024 : ℚ) ^ 4 := by exact_mod_cast hn
            norm_num at this ⊢
            linarith
          exact ⟨fmtFixed 1 ((n : ℚ) / 1024 / 1024 / 1024) ++ " ",
            Or.inr (Or.inr (Or.inr
              (by simp [format_size, format_size_go, b1, b2, b3, b4])))⟩
  · intro fmtTime stat probeOut tag f st r hs hsize hp
    rw [process_single_video_size hs hp]
    exact hnone st.size hsize

/-- Witness for C10: the bound at `1024 ^ 4` and below, and a 1 TiB file's
record carrying a `None` size through the unit of work. -/
theorem claim10_witness :
    format_size (1024 ^ 4) = none ∧
    (∃ p, format_size 3 = some (p ++ "B") ∨ format_size 3 = some (p ++ "KB") ∨
      format_size 3 = some (p ++ "MB") ∨ format_size 3 = some (p ++ "GB")) ∧
    (process_single_video tT statHuge probeOK "" fA).map (fun r => r.size) =
      some none := by
  refine ⟨claim10_size_bound.1 (1024 ^ 4) (le_refl _),
    claim10_size_bound.2.1 3 (by norm_num), ?_⟩
  cases hp : process_single_video tT statHuge probeOK "" fA with
  | none => exact absurd hp (by decide)
  | some r =>
      have hsz := claim10_size_bound.2.2 tT statHuge probeOK "" fA
        { size := 1024 ^ 4, birthtime := none, mtime := 0 } r rfl (le_refl _) hp
      simp [hsz]
